import Mathlib

/-!
# Elastic collisions of circles in a bounded arena (src/gravity.js)

A shallow embedding of the physics of `src/gravity.js`: `rotate`,
`resolveCollision`, `distance`, the method `Circle.fall` and one frame of
`animate`.  JavaScript numbers are read as real numbers, `Math.cos`,
`Math.sin`, `Math.sqrt` are the real functions, and `Math.atan2 y x` is the
argument of the point `(x, y)`.  Drawing and colouring (`draw`,
`interactivity`, `randomColor`) do not touch positions or velocities and are
left out.
-/

noncomputable section

namespace Gravity

/-- The object stored in `velocity` of a particle: `{x, y}`. -/
@[ext] structure Velocity where
  /-- Field `velocity.x`. -/
  x : ℝ
  /-- Field `velocity.y`. -/
  y : ℝ

/-- The physical fields of a `Circle` (gravity.js lines 126-132); `color`
is presentation only. -/
@[ext] structure Circle where
  /-- Field `this.x`. -/
  x : ℝ
  /-- Field `this.y`. -/
  y : ℝ
  /-- Field `this.velocity`. -/
  velocity : Velocity
  /-- Field `this.radius`. -/
  radius : ℝ
  /-- Field `this.mass` (the constructor stores 1). -/
  mass : ℝ

/-- The function `rotate(velocity, angle)`, gravity.js lines 11-18. -/
def rotate (velocity : Velocity) (angle : ℝ) : Velocity :=
  { x := velocity.x * Real.cos angle - velocity.y * Real.sin angle
    y := velocity.x * Real.sin angle + velocity.y * Real.cos angle }

/-- The library function `Math.atan2(y, x)` on real numbers: the angle in
`(-π, π]` of the point `(x, y)`, and `0` at the origin. -/
def atan2 (y x : ℝ) : ℝ := Complex.arg ⟨x, y⟩

/-- The value `v1` of `resolveCollision`, gravity.js lines 51-54. -/
def v1 (m1 m2 : ℝ) (u1 u2 : Velocity) : Velocity :=
  { x := u1.x * (m1 - m2) / (m1 + m2) + u2.x * 2 * m2 / (m1 + m2)
    y := u1.y }

/-- The value `v2` of `resolveCollision`, gravity.js lines 55-58. -/
def v2 (m1 m2 : ℝ) (u1 u2 : Velocity) : Velocity :=
  { x := u2.x * (m1 - m2) / (m1 + m2) + u1.x * 2 * m2 / (m1 + m2)
    y := u2.y }

/-- The function `resolveCollision(particle, otherParticle)`, gravity.js
lines 29-71.  The two objects are mutated in place in the source; here the
pair of updated objects is returned. -/
def resolveCollision (particle otherParticle : Circle) : Circle × Circle :=
  let xVelocityDiff := particle.velocity.x - otherParticle.velocity.x
  let yVelocityDiff := particle.velocity.y - otherParticle.velocity.y
  let xDist := otherParticle.x - particle.x
  let yDist := otherParticle.y - particle.y
  if xVelocityDiff * xDist + yVelocityDiff * yDist ≥ 0 then
    let angle := -atan2 (otherParticle.y - particle.y) (otherParticle.x - particle.x)
    let m1 := particle.mass
    let m2 := otherParticle.mass
    let u1 := rotate particle.velocity angle
    let u2 := rotate otherParticle.velocity angle
    let vFinal1 := rotate (v1 m1 m2 u1 u2) (-angle)
    let vFinal2 := rotate (v2 m1 m2 u1 u2) (-angle)
    ({ particle with velocity := { x := vFinal1.x, y := vFinal1.y } },
     { otherParticle with velocity := { x := vFinal2.x, y := vFinal2.y } })
  else
    (particle, otherParticle)

/-- The constant `frictionX`, gravity.js line 111. -/
def frictionX : ℝ := 1

/-- The constant `frictionY`, gravity.js line 112. -/
def frictionY : ℝ := 1

/-- The function `distance(x1, y1, x2, y2)`, gravity.js lines 118-122. -/
def distance (x1 y1 x2 y2 : ℝ) : ℝ :=
  let xDist := x1 - x2
  let yDist := y1 - y2
  Real.sqrt (xDist ^ 2 + yDist ^ 2)

/-- The integration part of `Circle.fall`, gravity.js lines 141-149, in an
arena of width `W = canvas.width` and height `H = canvas.height`: the two
wall tests in source order, then the position update. -/
def fallStep (W H : ℝ) (c : Circle) : Circle :=
  let vy := if c.y + c.radius + c.velocity.y ≥ H ∨ c.y - c.radius < 0
    then -c.velocity.y * frictionY else c.velocity.y
  let vx := if c.x + c.radius + c.velocity.x ≥ W ∨ c.x - c.radius ≤ 0
    then -c.velocity.x * frictionX else c.velocity.x
  { c with x := c.x + vx, y := c.y + vy, velocity := { x := vx, y := vy } }

/-- The array `circleArray` together with a record of the calls of
`resolveCollision` made so far: `(i, j)` stands for
`resolveCollision(circleArray[i], circleArray[j])`.  The record is
instrumentation; the source keeps none. -/
structure World where
  /-- The global `circleArray`. -/
  circleArray : List Circle
  /-- The calls of `resolveCollision` made so far, oldest first. -/
  calls : List (ℕ × ℕ)

/-- One pass of the body of the loop of `Circle.fall`, gravity.js lines
154-157, for `this = circleArray[k]` and loop index `i`.  The objects of the
array are pairwise distinct, so `this === circleArray[i]` is `k = i`. -/
def fallVisit (k : ℕ) (w : World) (i : ℕ) : World :=
  if k = i then w
  else
    match w.circleArray[k]?, w.circleArray[i]? with
    | some this, some other =>
      if distance this.x this.y other.x other.y < this.radius + other.radius then
        { circleArray :=
            (w.circleArray.set k (resolveCollision this other).1).set i
              (resolveCollision this other).2
          calls := w.calls ++ [(k, i)] }
      else w
    | _, _ => w

/-- The method `fall` of `circleArray[k]`, gravity.js lines 140-162: the
integration step, then the loop over the whole array. -/
def fall (W H : ℝ) (k : ℕ) (w : World) : World :=
  match w.circleArray[k]? with
  | none => w
  | some this =>
    (List.range w.circleArray.length).foldl (fallVisit k)
      { w with circleArray := w.circleArray.set k (fallStep W H this) }

/-- One frame of `animate`, gravity.js lines 229-232: `fall` on every circle
of the array, in order. -/
def animate (W H : ℝ) (w : World) : World :=
  (List.range w.circleArray.length).foldl (fun acc i => fall W H i acc) w

/-- The head-on pair of the spec's scenario: unit masses, radii 6, `A` at
`(0,0)` with velocity `(5,0)`. -/
def headOnA : Circle :=
  { x := 0, y := 0, velocity := { x := 5, y := 0 }, radius := 6, mass := 1 }

/-- The head-on pair of the spec's scenario: `B` at `(10,0)` with velocity
`(-5,0)`. -/
def headOnB : Circle :=
  { x := 10, y := 0, velocity := { x := -5, y := 0 }, radius := 6, mass := 1 }

/-- A pair of unequal masses: `P` of mass 1 at `(0,0)` with velocity `(1,0)`. -/
def unequalP : Circle :=
  { x := 0, y := 0, velocity := { x := 1, y := 0 }, radius := 1, mass := 1 }

/-- A pair of unequal masses: `Q` of mass 2 at `(1,0)`, at rest. -/
def unequalQ : Circle :=
  { x := 1, y := 0, velocity := { x := 0, y := 0 }, radius := 1, mass := 2 }

/-- The head-on pair with both velocities reversed: the circles move apart. -/
def apartA : Circle :=
  { x := 0, y := 0, velocity := { x := -5, y := 0 }, radius := 6, mass := 1 }

/-- The head-on pair with both velocities reversed: the circles move apart. -/
def apartB : Circle :=
  { x := 10, y := 0, velocity := { x := 5, y := 0 }, radius := 6, mass := 1 }

/-- The quantity tested by the `if` of `resolveCollision`, gravity.js lines
30-37: `xVelocityDiff * xDist + yVelocityDiff * yDist`. -/
def approach (particle otherParticle : Circle) : ℝ :=
  (particle.velocity.x - otherParticle.velocity.x) * (otherParticle.x - particle.x)
    + (particle.velocity.y - otherParticle.velocity.y) * (otherParticle.y - particle.y)

/-- A circle at distance `ε` inside the left wall test: centre at
`x = r - ε`, radius `r`. -/
def nearLeftWall (r ε y vx vy m : ℝ) : Circle :=
  { x := r - ε, y := y, velocity := { x := vx, y := vy }, radius := r, mass := m }

/-- The particle of the spec's top-wall scenario: `y = -1`, radius 5,
`vy = 3`; `x`, `vx` and the mass are free. -/
def topWallParticle (x vx m : ℝ) : Circle :=
  { x := x, y := -1, velocity := { x := vx, y := 3 }, radius := 5, mass := m }

/-- A circle in the top left corner of the arena, moving up and left. -/
def cornerCircle : Circle :=
  { x := 3, y := 3, velocity := { x := -1, y := -1 }, radius := 5, mass := 1 }

/-- The component of the velocity `v` along the line from the centre of `A`
to the centre of `B`. -/
def along (v : Velocity) (A B : Circle) : ℝ :=
  (v.x * (B.x - A.x) + v.y * (B.y - A.y)) / distance A.x A.y B.x B.y

/-- The component of the velocity `v` perpendicular to the line from the
centre of `A` to the centre of `B`. -/
def across (v : Velocity) (A B : Circle) : ℝ :=
  (v.y * (B.x - A.x) - v.x * (B.y - A.y)) / distance A.x A.y B.x B.y

/-- The position and radius of a circle: what the overlap test of `fall`,
gravity.js line 155, reads. -/
def geom (c : Circle) : ℝ × ℝ × ℝ := (c.x, c.y, c.radius)

/-- Whether the loop of `fall` for `this = cs[k]` reaches the call of
`resolveCollision` at loop index `i`: the two tests of gravity.js lines
154-155 on the array `cs`. -/
def hits (cs : List Circle) (k i : ℕ) : Bool :=
  match cs[k]?, cs[i]? with
  | some this, some other =>
    decide (k ≠ i ∧ distance this.x this.y other.x other.y < this.radius + other.radius)
  | _, _ => false

/-- The array as the loop of `fall` of `circleArray[k]` finds it: circle `k`
has made its integration step, the others are as they were. -/
def moved (W H : ℝ) (cs : List Circle) (k : ℕ) : List Circle :=
  match cs[k]? with
  | none => cs
  | some this => cs.set k (fallStep W H this)

/-- The world at the moment `animate` is about to call `fall` on
`circleArray[k]`: the falls of the circles `0, ..., k-1` are done. -/
def before (W H : ℝ) (w : World) (k : ℕ) : World :=
  (List.range k).foldl (fun acc i => fall W H i acc) w

/-- A circle at rest inside the arena: centre `(100,100)`, radius 20. -/
def stillA : Circle :=
  { x := 100, y := 100, velocity := { x := 0, y := 0 }, radius := 20, mass := 1 }

/-- A circle at rest inside the arena, overlapping `stillA`: centre
`(110,100)`, radius 20. -/
def stillB : Circle :=
  { x := 110, y := 100, velocity := { x := 0, y := 0 }, radius := 20, mass := 1 }

/-- The calls of `resolveCollision` that one frame of `animate` adds on the
world `w`, in order: for each `k`, in the fall of circle `k`, the indices `i`
that pass the tests of lines 154-155 on the array of that moment. -/
def frameCalls (W H : ℝ) (w : World) : List (ℕ × ℕ) :=
  (List.range w.circleArray.length).flatMap (fun k =>
    ((List.range w.circleArray.length).filter
      (fun i => hits (moved W H (before W H w k).circleArray k) k i)).map (fun i => (k, i)))

/-- Every circle of the array is at rest. -/
def stationary (cs : List Circle) : Prop := ∀ c ∈ cs, c.velocity = { x := 0, y := 0 }

/-- A circle moving right towards a circle at rest near the right wall of a
500 by 500 arena: centre `(440,100)`, velocity `(5,0)`, radius 20, mass 1. -/
def wallA : Circle :=
  { x := 440, y := 100, velocity := { x := 5, y := 0 }, radius := 20, mass := 1 }

/-- The circle at rest near the right wall: centre `(478,100)`, radius 20,
mass 1. -/
def wallB : Circle :=
  { x := 478, y := 100, velocity := { x := 0, y := 0 }, radius := 20, mass := 1 }

/-! ## Trigonometry of the collision angle -/

theorem atan2_zero_of_nonneg (x : ℝ) (hx : 0 ≤ x) : atan2 0 x = 0 := by
  have h : (⟨x, 0⟩ : ℂ) = (x : ℂ) := rfl
  rw [atan2, h, Complex.arg_ofReal_of_nonneg hx]

theorem rotate_rotate_neg (v : Velocity) (θ : ℝ) : rotate (rotate v θ) (-θ) = v := by
  have h := Real.sin_sq_add_cos_sq θ
  ext
  · simp only [rotate, Real.cos_neg, Real.sin_neg]
    linear_combination v.x * h
  · simp only [rotate, Real.cos_neg, Real.sin_neg]
    linear_combination v.y * h

/-! ## The rotation -/

/-- C5.  Rotating a velocity by `θ` and then by `-θ` gives the velocity
back, for every velocity and every angle. -/
theorem rotate_round_trip (v : Velocity) (θ : ℝ) :
    rotate (rotate v θ) (-θ) = v ∧
      rotate v θ = { x := v.x * Real.cos θ - v.y * Real.sin θ
                     y := v.x * Real.sin θ + v.y * Real.cos θ } :=
  ⟨rotate_rotate_neg v θ, rfl⟩

/-! ## The test on the approach quantity -/

theorem resolveCollision_headOn :
    resolveCollision headOnA headOnB =
      ({ headOnA with velocity := { x := -5, y := 0 } },
       { headOnB with velocity := { x := 5, y := 0 } }) := by
  have h : atan2 0 10 = 0 := atan2_zero_of_nonneg 10 (by norm_num)
  simp [resolveCollision, headOnA, headOnB, rotate, v1, v2, h]
  norm_num


/-- C3, as stated, fails: on the head-on pair the tested quantity
`dvx*dx + dvy*dy` is `100 ≥ 0` and `resolveCollision` changes the velocity of
`A` from `(5,0)` to `(-5,0)`. -/
theorem approach_nonneg_changes_velocity :
    approach headOnA headOnB ≥ 0 ∧
      (resolveCollision headOnA headOnB).1.velocity ≠ headOnA.velocity := by
  rw [resolveCollision_headOn]
  constructor
  · norm_num [approach, headOnA, headOnB]
  · intro h
    have hx := congrArg Velocity.x h
    norm_num [headOnA] at hx

/-- C3, amended.  If the tested quantity `dvx*dx + dvy*dy` is negative,
`resolveCollision` leaves both particles, hence both velocities, unchanged;
a change is applied only when the quantity is `≥ 0`. -/
theorem approach_negative_unchanged (A B : Circle) :
    (approach A B < 0 → resolveCollision A B = (A, B)) ∧
      (resolveCollision A B ≠ (A, B) → approach A B ≥ 0) := by
  have key : approach A B < 0 → resolveCollision A B = (A, B) := by
    intro h
    have h2 : ¬ ((A.velocity.x - B.velocity.x) * (B.x - A.x)
        + (A.velocity.y - B.velocity.y) * (B.y - A.y) ≥ 0) := not_le.mpr h
    simp only [resolveCollision, if_neg h2]
  refine ⟨key, fun hne => ?_⟩
  by_contra hlt
  exact hne (key (not_le.mp hlt))

/-- C3, amended, on the pair moving apart: the tested quantity is `-100`
and nothing changes. -/
theorem approach_negative_unchanged_witness :
    approach apartA apartB < 0 ∧ resolveCollision apartA apartB = (apartA, apartB) :=
  ⟨by norm_num [approach, apartA, apartB],
    (approach_negative_unchanged apartA apartB).1 (by norm_num [approach, apartA, apartB])⟩

/-! ## The exchange with unequal masses -/

/-- C1 at the failing input: `P` (mass 1, velocity `(1,0)`) meets `Q`
(mass 2, at rest, one unit to the right).  The test of line 37 passes, and
the mass-weighted x-velocity sum goes from `1` to `7/3`. -/
theorem momentum_unequal_masses :
    approach unequalP unequalQ ≥ 0 ∧
      unequalP.mass * unequalP.velocity.x + unequalQ.mass * unequalQ.velocity.x = 1 ∧
      unequalP.mass * (resolveCollision unequalP unequalQ).1.velocity.x
        + unequalQ.mass * (resolveCollision unequalP unequalQ).2.velocity.x = 7 / 3 := by
  have h : atan2 0 1 = 0 := atan2_zero_of_nonneg 1 (by norm_num)
  refine ⟨by norm_num [approach, unequalP, unequalQ], by norm_num [unequalP, unequalQ], ?_⟩
  simp [resolveCollision, unequalP, unequalQ, rotate, v1, v2, h]
  norm_num

/-- C2 at the failing input: masses 1 and 2, rotated-frame x-velocities 1
and 0.  The exchange step gives `-1/3` and `4/3`, and the kinetic energy along
the rotated x-axis goes from `1` to `11/3`. -/
theorem energy_unequal_masses :
    (v1 1 2 ⟨1, 0⟩ ⟨0, 0⟩).x = -1 / 3 ∧ (v2 1 2 ⟨1, 0⟩ ⟨0, 0⟩).x = 4 / 3 ∧
      (1 : ℝ) * (1 : ℝ) ^ 2 + 2 * (0 : ℝ) ^ 2 = 1 ∧
      (1 : ℝ) * (v1 1 2 ⟨1, 0⟩ ⟨0, 0⟩).x ^ 2 + 2 * (v2 1 2 ⟨1, 0⟩ ⟨0, 0⟩).x ^ 2 = 11 / 3 := by
  refine ⟨?_, ?_, ?_, ?_⟩ <;> norm_num [v1, v2]

/-! ## The integration step of `fall` -/

theorem fallStep_velocity_x (W H : ℝ) (c : Circle) :
    (fallStep W H c).velocity.x =
      if c.x + c.radius + c.velocity.x ≥ W ∨ c.x - c.radius ≤ 0 then -c.velocity.x
      else c.velocity.x := by
  simp [fallStep, frictionX]

theorem fallStep_velocity_y (W H : ℝ) (c : Circle) :
    (fallStep W H c).velocity.y =
      if c.y + c.radius + c.velocity.y ≥ H ∨ c.y - c.radius < 0 then -c.velocity.y
      else c.velocity.y := by
  simp [fallStep, frictionY]

/-- C7.  The integration step of `fall`, with the friction constants of the
source (both 1): `vy` changes sign exactly when `y + radius + vy ≥ H` or
`y - radius < 0`, `vx` exactly when `x + radius + vx ≥ W` or
`x - radius ≤ 0`, each test reading its own axis only; the new position is
the old one plus the new velocity; and both tests fire together on the
corner circle. -/
theorem fallStep_spec (W H : ℝ) (c : Circle) :
    frictionX = 1 ∧ frictionY = 1 ∧
      ((fallStep W H c).velocity.y =
        if c.y + c.radius + c.velocity.y ≥ H ∨ c.y - c.radius < 0 then -c.velocity.y
        else c.velocity.y) ∧
      ((fallStep W H c).velocity.x =
        if c.x + c.radius + c.velocity.x ≥ W ∨ c.x - c.radius ≤ 0 then -c.velocity.x
        else c.velocity.x) ∧
      (fallStep W H c).x = c.x + (fallStep W H c).velocity.x ∧
      (fallStep W H c).y = c.y + (fallStep W H c).velocity.y ∧
      (fallStep W H c).radius = c.radius ∧ (fallStep W H c).mass = c.mass ∧
      (fallStep 500 500 cornerCircle).velocity = { x := 1, y := 1 } := by
  refine ⟨rfl, rfl, fallStep_velocity_y W H c, fallStep_velocity_x W H c, rfl, rfl, rfl, rfl, ?_⟩
  ext
  · rw [fallStep_velocity_x]; norm_num [cornerCircle]
  · rw [fallStep_velocity_y]; norm_num [cornerCircle]

/-- C8, as stated, fails: radius 10, `ε = 5`, `vx = -1`.  The step ends at
`x = 6`, so the left surface is at `-4`, beyond the wall by more than the
speed 1. -/
theorem left_wall_bound_fails :
    (0 : ℝ) < 10 ∧ (0 : ℝ) < 5 ∧ (-1 : ℝ) < 0 ∧
      ¬ ((fallStep 500 500 (nearLeftWall 10 5 100 (-1) 0 1)).x - 10 ≥ -|(-1 : ℝ)|) := by
  refine ⟨by norm_num, by norm_num, by norm_num, ?_⟩
  have hx : (fallStep 500 500 (nearLeftWall 10 5 100 (-1) 0 1)).x = 6 := by
    show (nearLeftWall 10 5 100 (-1) 0 1).x
      + (fallStep 500 500 (nearLeftWall 10 5 100 (-1) 0 1)).velocity.x = 6
    rw [fallStep_velocity_x]; norm_num [nearLeftWall]
  rw [hx]; norm_num

/-- C8, amended.  For a circle of radius `r > 0` at `x = r - ε`, `ε > 0`,
with `vx < 0`: one integration step flips the sign of `vx` (the new `vx` is
`-vx > 0`) and leaves the left surface at `x' - r = |vx| - ε`; the bound
`x' - r ≥ -|vx|` holds exactly when `ε ≤ 2 * |vx|`. -/
theorem left_wall_reflection (W H r ε y vx vy m : ℝ) (_hr : 0 < r) (hε : 0 < ε)
    (hvx : vx < 0) :
    (fallStep W H (nearLeftWall r ε y vx vy m)).velocity.x = -vx ∧
      0 < (fallStep W H (nearLeftWall r ε y vx vy m)).velocity.x ∧
      (fallStep W H (nearLeftWall r ε y vx vy m)).x - r = |vx| - ε ∧
      ((fallStep W H (nearLeftWall r ε y vx vy m)).x - r ≥ -|vx| ↔ ε ≤ 2 * |vx|) := by
  have hv : (fallStep W H (nearLeftWall r ε y vx vy m)).velocity.x = -vx := by
    rw [fallStep_velocity_x]
    have hcond : (nearLeftWall r ε y vx vy m).x + (nearLeftWall r ε y vx vy m).radius
          + (nearLeftWall r ε y vx vy m).velocity.x ≥ W
        ∨ (nearLeftWall r ε y vx vy m).x - (nearLeftWall r ε y vx vy m).radius ≤ 0 := by
      right
      show r - ε - r ≤ 0
      linarith
    rw [if_pos hcond]
    rfl
  have hx : (fallStep W H (nearLeftWall r ε y vx vy m)).x = r - ε + -vx := by
    show (nearLeftWall r ε y vx vy m).x
      + (fallStep W H (nearLeftWall r ε y vx vy m)).velocity.x = r - ε + -vx
    rw [hv]; rfl
  have habs : |vx| = -vx := abs_of_neg hvx
  refine ⟨hv, by rw [hv]; linarith, by rw [hx, habs]; ring, ?_⟩
  rw [hx, habs]
  constructor <;> intro h <;> linarith

/-- C8, amended, at radius 10, `ε = 1`, `vx = -1`. -/
theorem left_wall_reflection_witness :
    (fallStep 500 500 (nearLeftWall 10 1 100 (-1) 0 1)).velocity.x = -(-1) ∧
      0 < (fallStep 500 500 (nearLeftWall 10 1 100 (-1) 0 1)).velocity.x ∧
      (fallStep 500 500 (nearLeftWall 10 1 100 (-1) 0 1)).x - 10 = |(-1 : ℝ)| - 1 ∧
      ((fallStep 500 500 (nearLeftWall 10 1 100 (-1) 0 1)).x - 10 ≥ -|(-1 : ℝ)|
        ↔ (1 : ℝ) ≤ 2 * |(-1 : ℝ)|) :=
  left_wall_reflection 500 500 10 1 100 (-1) 0 1 (by norm_num) (by norm_num) (by norm_num)

theorem topWall_invariant (W x vx m : ℝ) (n : ℕ) :
    ((fallStep W 500)^[n] (topWallParticle x vx m)).radius = 5 ∧
      ((((fallStep W 500)^[n] (topWallParticle x vx m)).y = -1
          ∧ ((fallStep W 500)^[n] (topWallParticle x vx m)).velocity.y = 3)
        ∨ (((fallStep W 500)^[n] (topWallParticle x vx m)).y = -4
          ∧ ((fallStep W 500)^[n] (topWallParticle x vx m)).velocity.y = -3)) := by
  induction n with
  | zero => exact ⟨rfl, Or.inl ⟨rfl, rfl⟩⟩
  | succ n ih =>
    rw [Function.iterate_succ_apply']
    generalize (fallStep W 500)^[n] (topWallParticle x vx m) = c at ih
    obtain ⟨hr, hy⟩ := ih
    have hvy := fallStep_velocity_y W 500 c
    have hpos : (fallStep W 500 c).y = c.y + (fallStep W 500 c).velocity.y := rfl
    have hcond : c.y + c.radius + c.velocity.y ≥ 500 ∨ c.y - c.radius < 0 := by
      right
      rcases hy with ⟨h1, _⟩ | ⟨h1, _⟩ <;> rw [h1, hr] <;> norm_num
    rw [if_pos hcond] at hvy
    refine ⟨hr, ?_⟩
    rcases hy with ⟨h1, h2⟩ | ⟨h1, h2⟩
    · right
      rw [hpos, hvy, h1, h2]
      constructor <;> norm_num
    · left
      rw [hpos, hvy, h1, h2]
      constructor <;> norm_num

/-- C9 at the failing input: the particle with `y = -1`, radius 5, `vy = 3`
in an arena of height 500.  The first step gives `vy = -3`, `y = -4`, and
after every number of integration steps the top surface is still outside:
`y - radius < 0`. -/
theorem topWall_never_settles (W x vx m : ℝ) :
    (fallStep W 500 (topWallParticle x vx m)).velocity.y = -3 ∧
      (fallStep W 500 (topWallParticle x vx m)).y = -4 ∧
      ∀ n : ℕ, ((fallStep W 500)^[n] (topWallParticle x vx m)).y
        - ((fallStep W 500)^[n] (topWallParticle x vx m)).radius < 0 := by
  have hv : (fallStep W 500 (topWallParticle x vx m)).velocity.y = -3 := by
    rw [fallStep_velocity_y]; norm_num [topWallParticle]
  refine ⟨hv, ?_, fun n => ?_⟩
  · show (topWallParticle x vx m).y + (fallStep W 500 (topWallParticle x vx m)).velocity.y = -4
    rw [hv]; norm_num [topWallParticle]
  · obtain ⟨hr, hy⟩ := topWall_invariant W x vx m n
    rcases hy with ⟨h1, _⟩ | ⟨h1, _⟩ <;> rw [h1, hr] <;> norm_num


theorem collision_frame (dx dy : ℝ) (h : dx ≠ 0 ∨ dy ≠ 0) :
    ∃ d : ℝ, 0 < d ∧ Real.cos (atan2 dy dx) * d = dx ∧ Real.sin (atan2 dy dx) * d = dy := by
  have hz : (⟨dx, dy⟩ : ℂ) ≠ 0 := by
    intro h0
    have hre := congrArg Complex.re h0
    have him := congrArg Complex.im h0
    simp at hre him
    rcases h with h | h
    · exact h hre
    · exact h him
  have hd : 0 < Complex.abs ⟨dx, dy⟩ := Complex.abs.pos hz
  refine ⟨Complex.abs ⟨dx, dy⟩, hd, ?_, ?_⟩
  · rw [atan2, Complex.cos_arg hz]
    field_simp
  · rw [atan2, Complex.sin_arg]
    field_simp

theorem v1_equal_mass (m : ℝ) (hm : m ≠ 0) (u1 u2 : Velocity) :
    v1 m m u1 u2 = { x := u2.x, y := u1.y } := by
  ext
  · have h2 : m + m ≠ 0 := by
      intro h0
      exact hm (by linarith)
    simp only [v1, sub_self, mul_zero, zero_div, zero_add]
    rw [div_eq_iff h2]
    ring
  · rfl

theorem v2_equal_mass (m : ℝ) (hm : m ≠ 0) (u1 u2 : Velocity) :
    v2 m m u1 u2 = { x := u1.x, y := u2.y } := by
  ext
  · have h2 : m + m ≠ 0 := by
      intro h0
      exact hm (by linarith)
    simp only [v2, sub_self, mul_zero, zero_div, zero_add]
    rw [div_eq_iff h2]
    ring
  · rfl

theorem resolveCollision_of_approach (A B : Circle) (h : approach A B ≥ 0) :
    resolveCollision A B =
      ({ A with
          velocity :=
            rotate (v1 A.mass B.mass (rotate A.velocity (-atan2 (B.y - A.y) (B.x - A.x)))
              (rotate B.velocity (-atan2 (B.y - A.y) (B.x - A.x))))
              (-(-atan2 (B.y - A.y) (B.x - A.x))) },
       { B with
          velocity :=
            rotate (v2 A.mass B.mass (rotate A.velocity (-atan2 (B.y - A.y) (B.x - A.x)))
              (rotate B.velocity (-atan2 (B.y - A.y) (B.x - A.x))))
              (-(-atan2 (B.y - A.y) (B.x - A.x))) }) := by
  have h2 : (A.velocity.x - B.velocity.x) * (B.x - A.x)
      + (A.velocity.y - B.velocity.y) * (B.y - A.y) ≥ 0 := h
  simp only [resolveCollision, if_pos h2]

theorem resolveCollision_of_receding (A B : Circle) (h : approach A B < 0) :
    resolveCollision A B = (A, B) := by
  have h2 : ¬ ((A.velocity.x - B.velocity.x) * (B.x - A.x)
      + (A.velocity.y - B.velocity.y) * (B.y - A.y) ≥ 0) := not_le.mpr h
  simp only [resolveCollision, if_neg h2]


theorem equal_mass_exchange (A B : Circle) (hm : A.mass = B.mass) (hpos : A.mass ≠ 0)
    (hc : B.x - A.x ≠ 0 ∨ B.y - A.y ≠ 0) (hg : approach A B ≥ 0) :
    ((resolveCollision A B).1.velocity.x * (B.x - A.x)
        + (resolveCollision A B).1.velocity.y * (B.y - A.y)
        = B.velocity.x * (B.x - A.x) + B.velocity.y * (B.y - A.y)) ∧
      ((resolveCollision A B).2.velocity.x * (B.x - A.x)
        + (resolveCollision A B).2.velocity.y * (B.y - A.y)
        = A.velocity.x * (B.x - A.x) + A.velocity.y * (B.y - A.y)) ∧
      ((resolveCollision A B).1.velocity.y * (B.x - A.x)
        - (resolveCollision A B).1.velocity.x * (B.y - A.y)
        = A.velocity.y * (B.x - A.x) - A.velocity.x * (B.y - A.y)) ∧
      ((resolveCollision A B).2.velocity.y * (B.x - A.x)
        - (resolveCollision A B).2.velocity.x * (B.y - A.y)
        = B.velocity.y * (B.x - A.x) - B.velocity.x * (B.y - A.y)) := by
  obtain ⟨d, _, hcos, hsin⟩ := collision_frame (B.x - A.x) (B.y - A.y) hc
  rw [resolveCollision_of_approach A B hg, ← hm, v1_equal_mass _ hpos, v2_equal_mass _ hpos]
  simp only [rotate, Real.cos_neg, Real.sin_neg, neg_neg]
  generalize atan2 (B.y - A.y) (B.x - A.x) = θ at hcos hsin ⊢
  have h1 := Real.sin_sq_add_cos_sq θ
  rw [← hcos, ← hsin]
  generalize Real.cos θ = c at h1 ⊢
  generalize Real.sin θ = s at h1 ⊢
  refine ⟨?_, ?_, ?_, ?_⟩
  · linear_combination (d * (B.velocity.x * c + B.velocity.y * s)) * h1
  · linear_combination (d * (A.velocity.x * c + A.velocity.y * s)) * h1
  · linear_combination (d * (-A.velocity.x * s + A.velocity.y * c)) * h1
  · linear_combination (d * (-B.velocity.x * s + B.velocity.y * c)) * h1

theorem resolveCollision_geometry (A B : Circle) :
    (resolveCollision A B).1.x = A.x ∧ (resolveCollision A B).1.y = A.y ∧
      (resolveCollision A B).1.radius = A.radius ∧ (resolveCollision A B).1.mass = A.mass ∧
      (resolveCollision A B).2.x = B.x ∧ (resolveCollision A B).2.y = B.y ∧
      (resolveCollision A B).2.radius = B.radius ∧ (resolveCollision A B).2.mass = B.mass := by
  unfold resolveCollision
  simp only
  split <;> exact ⟨rfl, rfl, rfl, rfl, rfl, rfl, rfl, rfl⟩


theorem centres_distinct (A B : Circle) (hc : (A.x, A.y) ≠ (B.x, B.y)) :
    B.x - A.x ≠ 0 ∨ B.y - A.y ≠ 0 := by
  by_contra h
  push_neg at h
  apply hc
  rw [Prod.mk.injEq]
  exact ⟨by linarith [h.1], by linarith [h.2]⟩

theorem velocity_eq_of_components (v w : Velocity) (dx dy : ℝ) (h : dx ≠ 0 ∨ dy ≠ 0)
    (h1 : v.x * dx + v.y * dy = w.x * dx + w.y * dy)
    (h2 : v.y * dx - v.x * dy = w.y * dx - w.x * dy) : v = w := by
  have hpos : 0 < dx ^ 2 + dy ^ 2 := by
    rcases h with h | h
    · have := pow_pos (abs_pos.mpr h) 2
      rw [sq_abs] at this
      nlinarith [sq_nonneg dy]
    · have := pow_pos (abs_pos.mpr h) 2
      rw [sq_abs] at this
      nlinarith [sq_nonneg dx]
  have hne : dx ^ 2 + dy ^ 2 ≠ 0 := ne_of_gt hpos
  have hx : (v.x - w.x) * (dx ^ 2 + dy ^ 2) = 0 := by
    linear_combination dx * h1 - dy * h2
  have hy : (v.y - w.y) * (dx ^ 2 + dy ^ 2) = 0 := by
    linear_combination dy * h1 + dx * h2
  ext
  · have := (mul_eq_zero.mp hx).resolve_right hne
    linarith
  · have := (mul_eq_zero.mp hy).resolve_right hne
    linarith

theorem momentum_equal_masses (A B : Circle) (hm : A.mass = B.mass) (hpos : A.mass ≠ 0) :
    A.mass * (resolveCollision A B).1.velocity.x + B.mass * (resolveCollision A B).2.velocity.x
        = A.mass * A.velocity.x + B.mass * B.velocity.x ∧
      A.mass * (resolveCollision A B).1.velocity.y
          + B.mass * (resolveCollision A B).2.velocity.y
        = A.mass * A.velocity.y + B.mass * B.velocity.y := by
  rcases lt_or_le (approach A B) 0 with hneg | hg
  · rw [resolveCollision_of_receding A B hneg]
    exact ⟨rfl, rfl⟩
  · rw [resolveCollision_of_approach A B hg, ← hm, v1_equal_mass _ hpos, v2_equal_mass _ hpos]
    simp only [rotate, Real.cos_neg, Real.sin_neg, neg_neg]
    have h1 := Real.sin_sq_add_cos_sq (atan2 (B.y - A.y) (B.x - A.x))
    constructor
    · linear_combination (A.mass * (A.velocity.x + B.velocity.x)) * h1
    · linear_combination (A.mass * (A.velocity.y + B.velocity.y)) * h1

/-- C4.  For two particles of equal positive mass with distinct centres on
which `resolveCollision` applies its exchange (the test of line 37 passes),
the velocity
components along the line joining the centres are swapped between the two,
each particle keeps its component perpendicular to that line, and when the
two perpendicular components agree (a head-on collision) the velocities are
exchanged exactly. -/
theorem equal_mass_elastic_exchange (A B : Circle) (hm : A.mass = B.mass)
    (hpos : 0 < A.mass) (hc : (A.x, A.y) ≠ (B.x, B.y)) (hg : approach A B ≥ 0) :
    along (resolveCollision A B).1.velocity A B = along B.velocity A B ∧
      along (resolveCollision A B).2.velocity A B = along A.velocity A B ∧
      across (resolveCollision A B).1.velocity A B = across A.velocity A B ∧
      across (resolveCollision A B).2.velocity A B = across B.velocity A B ∧
      (across A.velocity A B = across B.velocity A B →
        (resolveCollision A B).1.velocity = B.velocity ∧
          (resolveCollision A B).2.velocity = A.velocity) := by
  have hd := centres_distinct A B hc
  obtain ⟨e1, e2, e3, e4⟩ := equal_mass_exchange A B hm (ne_of_gt hpos) hd hg
  refine ⟨?_, ?_, ?_, ?_, fun hac => ?_⟩
  · simp only [along, e1]
  · simp only [along, e2]
  · simp only [across, e3]
  · simp only [across, e4]
  · have hdist : distance A.x A.y B.x B.y ≠ 0 := by
      unfold distance
      simp only
      apply ne_of_gt
      apply Real.sqrt_pos.mpr
      rcases hd with h | h
      · have := pow_pos (abs_pos.mpr h) 2
        rw [sq_abs] at this
        nlinarith [sq_nonneg (A.x - B.x), sq_nonneg (A.y - B.y)]
      · have := pow_pos (abs_pos.mpr h) 2
        rw [sq_abs] at this
        nlinarith [sq_nonneg (A.x - B.x), sq_nonneg (A.y - B.y)]
    have hac2 : A.velocity.y * (B.x - A.x) - A.velocity.x * (B.y - A.y)
        = B.velocity.y * (B.x - A.x) - B.velocity.x * (B.y - A.y) := by
      simp only [across] at hac
      exact (div_left_inj' hdist).mp hac
    exact ⟨velocity_eq_of_components _ _ _ _ hd e1 (e3.trans hac2),
      velocity_eq_of_components _ _ _ _ hd e2 (e4.trans hac2.symm)⟩

/-- C4 on the spec's scenario: unit masses, `A` at `(0,0)` with velocity
`(5,0)`, `B` at `(10,0)` with velocity `(-5,0)`; afterwards `A` has velocity
`(-5,0)` and `B` has velocity `(5,0)`. -/
theorem equal_mass_elastic_exchange_witness :
    (resolveCollision headOnA headOnB).1.velocity = { x := -5, y := 0 } ∧
      (resolveCollision headOnA headOnB).2.velocity = { x := 5, y := 0 } :=
  (equal_mass_elastic_exchange headOnA headOnB rfl (by norm_num [headOnA])
    (fun h => by have h1 := congrArg Prod.fst h; norm_num [headOnA, headOnB] at h1) (by norm_num [approach, headOnA, headOnB])).2.2.2.2
    (by simp [across, headOnA, headOnB])

theorem approach_swap (A B : Circle) : approach B A = approach A B := by
  simp only [approach]
  ring

/-- C10, amended.  For two particles of equal positive mass with distinct
centres, calling `resolveCollision` a second time at once on the result of a
first call changes nothing, in the same argument order (so twice in
succession is the same as once) and in the swapped order. -/
theorem resolveCollision_twice_equal_mass (A B : Circle) (hm : A.mass = B.mass)
    (hpos : 0 < A.mass) (hc : (A.x, A.y) ≠ (B.x, B.y)) :
    resolveCollision (resolveCollision A B).1 (resolveCollision A B).2
        = resolveCollision A B ∧
      resolveCollision (resolveCollision A B).2 (resolveCollision A B).1
        = ((resolveCollision A B).2, (resolveCollision A B).1) := by
  rcases lt_or_le (approach A B) 0 with hneg | hg
  · rw [resolveCollision_of_receding A B hneg]
    exact ⟨resolveCollision_of_receding A B hneg,
      resolveCollision_of_receding B A (by rw [approach_swap]; exact hneg)⟩
  · have hd := centres_distinct A B hc
    obtain ⟨e1, e2, e3, e4⟩ := equal_mass_exchange A B hm (ne_of_gt hpos) hd hg
    obtain ⟨gx1, gy1, gr1, gm1, gx2, gy2, gr2, gm2⟩ := resolveCollision_geometry A B
    generalize resolveCollision A B = p at e1 e2 e3 e4 gx1 gy1 gr1 gm1 gx2 gy2 gr2 gm2 ⊢
    obtain ⟨A', B'⟩ := p
    simp only at e1 e2 e3 e4 gx1 gy1 gr1 gm1 gx2 gy2 gr2 gm2 ⊢
    have happ : approach A' B' = -approach A B := by
      simp only [approach, gx1, gy1, gx2, gy2]
      linear_combination e1 - e2
    rcases eq_or_lt_of_le hg with h0 | hlt
    · have hg' : approach A' B' ≥ 0 := by rw [happ, ← h0]; norm_num
      have hg'' : approach B' A' ≥ 0 := by rw [approach_swap]; exact hg'
      have hd' : B'.x - A'.x ≠ 0 ∨ B'.y - A'.y ≠ 0 := by rw [gx1, gy1, gx2, gy2]; exact hd
      have hdr : A.x - B.x ≠ 0 ∨ A.y - B.y ≠ 0 := by
        rcases hd with h | h
        · exact Or.inl (fun h' => h (by linarith))
        · exact Or.inr (fun h' => h (by linarith))
      have hdr' : A'.x - B'.x ≠ 0 ∨ A'.y - B'.y ≠ 0 := by
        rw [gx1, gy1, gx2, gy2]; exact hdr
      have hm' : A'.mass = B'.mass := by rw [gm1, gm2]; exact hm
      have hpos' : A'.mass ≠ 0 := by rw [gm1]; exact ne_of_gt hpos
      have hposB : B'.mass ≠ 0 := by rw [← hm']; exact hpos'
      obtain ⟨f1, f2, f3, f4⟩ := equal_mass_exchange A' B' hm' hpos' hd' hg'
      obtain ⟨kx1, ky1, kr1, km1, kx2, ky2, kr2, km2⟩ := resolveCollision_geometry A' B'
      obtain ⟨r1, r2, r3, r4⟩ := equal_mass_exchange B' A' hm'.symm hposB hdr' hg''
      obtain ⟨sx1, sy1, sr1, sm1, sx2, sy2, sr2, sm2⟩ := resolveCollision_geometry B' A'
      rw [gx1, gy1, gx2, gy2] at f1 f2 f3 f4 r1 r2 r3 r4
      have hzero : A.velocity.x * (B.x - A.x) + A.velocity.y * (B.y - A.y)
          = B.velocity.x * (B.x - A.x) + B.velocity.y * (B.y - A.y) := by
        have := h0
        simp only [approach] at this
        linarith
      have hv1 : (resolveCollision A' B').1.velocity = A'.velocity :=
        velocity_eq_of_components _ _ _ _ hd (by rw [f1, e2, e1, hzero]) f3
      have hv2 : (resolveCollision A' B').2.velocity = B'.velocity :=
        velocity_eq_of_components _ _ _ _ hd (by rw [f2, e1, e2, hzero]) f4
      have hw1 : (resolveCollision B' A').1.velocity = B'.velocity :=
        velocity_eq_of_components _ _ _ _ hdr
          (by linear_combination r1 - e1 + e2 + hzero) r3
      have hw2 : (resolveCollision B' A').2.velocity = A'.velocity :=
        velocity_eq_of_components _ _ _ _ hdr
          (by linear_combination r2 + e1 - e2 - hzero) r4
      exact ⟨Prod.ext (Circle.ext kx1 ky1 hv1 kr1 km1) (Circle.ext kx2 ky2 hv2 kr2 km2),
        Prod.ext (Circle.ext sx1 sy1 hw1 sr1 sm1) (Circle.ext sx2 sy2 hw2 sr2 sm2)⟩
    · exact ⟨resolveCollision_of_receding A' B' (by rw [happ]; linarith),
        resolveCollision_of_receding B' A' (by rw [approach_swap, happ]; linarith)⟩

/-- C10, amended, on the head-on pair of the spec's scenario. -/
theorem resolveCollision_twice_equal_mass_witness :
    resolveCollision (resolveCollision headOnA headOnB).1 (resolveCollision headOnA headOnB).2
        = resolveCollision headOnA headOnB ∧
      resolveCollision (resolveCollision headOnA headOnB).2 (resolveCollision headOnA headOnB).1
        = ((resolveCollision headOnA headOnB).2, (resolveCollision headOnA headOnB).1) :=
  resolveCollision_twice_equal_mass headOnA headOnB rfl (by norm_num [headOnA])
    (fun h => by have h1 := congrArg Prod.fst h; norm_num [headOnA, headOnB] at h1)

/-! ## The calls of `resolveCollision` in one frame -/

theorem geom_resolveCollision (a b : Circle) :
    geom (resolveCollision a b).1 = geom a ∧ geom (resolveCollision a b).2 = geom b := by
  obtain ⟨h1, h2, h3, _, h5, h6, h7, _⟩ := resolveCollision_geometry a b
  simp only [geom, h1, h2, h3, h5, h6, h7, and_self]

theorem hits_congr (cs cs' : List Circle) (k i : ℕ)
    (h : ∀ n : ℕ, (cs'[n]?).map geom = (cs[n]?).map geom) : hits cs' k i = hits cs k i := by
  have hk := h k
  have hi := h i
  unfold hits
  cases hck : cs[k]? <;> cases hck' : cs'[k]? <;> cases hci : cs[i]? <;> cases hci' : cs'[i]?
    <;> simp only [hck, hck', hci, hci', Option.map_none', Option.map_some', reduceCtorEq,
      Option.some.injEq] at hk hi <;> try rfl
  simp only [geom, Prod.mk.injEq] at hk hi
  obtain ⟨h1, h2, h3⟩ := hk
  obtain ⟨h4, h5, h6⟩ := hi
  simp only [h1, h2, h3, h4, h5, h6]

theorem hits_self (cs : List Circle) (k : ℕ) : hits cs k k = false := by
  unfold hits
  split
  · simp
  · rfl

theorem fallVisit_spec (k : ℕ) (w : World) (i : ℕ) :
    (∀ n : ℕ, ((fallVisit k w i).circleArray[n]?).map geom = (w.circleArray[n]?).map geom) ∧
      (fallVisit k w i).calls
        = w.calls ++ (if hits w.circleArray k i = true then [(k, i)] else []) := by
  unfold fallVisit
  by_cases hki : k = i
  · subst hki
    rw [if_pos rfl, hits_self]
    simp
  · rw [if_neg hki]
    unfold hits
    cases hck : w.circleArray[k]? with
    | none => simp
    | some a =>
      cases hci : w.circleArray[i]? with
      | none => simp
      | some b =>
        simp only [hki, ne_eq, not_false_eq_true, true_and, decide_eq_true_eq]
        by_cases hd : distance a.x a.y b.x b.y < a.radius + b.radius
        · simp only [if_pos hd, and_true]
          intro n
          obtain ⟨g1, g2⟩ := geom_resolveCollision a b
          rw [List.getElem?_set]
          by_cases hin : i = n
          · subst hin
            have hlt : i < w.circleArray.length := by
              rcases Nat.lt_or_ge i w.circleArray.length with h | h
              · exact h
              · rw [List.getElem?_eq_none h] at hci
                cases hci
            simp [hlt, hci, g2]
          · rw [if_neg hin, List.getElem?_set]
            by_cases hkn : k = n
            · subst hkn
              have hlt : k < w.circleArray.length := by
                rcases Nat.lt_or_ge k w.circleArray.length with h | h
                · exact h
                · rw [List.getElem?_eq_none h] at hck
                  cases hck
              simp [hlt, hck, g1]
            · rw [if_neg hkn]
        · simp only [if_neg hd, List.append_nil, implies_true, and_self]

theorem length_eq_of_geom (cs cs' : List Circle)
    (h : ∀ n : ℕ, (cs'[n]?).map geom = (cs[n]?).map geom) : cs'.length = cs.length := by
  have hmap : cs'.map geom = cs.map geom :=
    List.ext_getElem? (fun n => by rw [List.getElem?_map, List.getElem?_map]; exact h n)
  have hlen := congrArg List.length hmap
  simpa using hlen

theorem foldl_fallVisit (k : ℕ) (js : List ℕ) (w : World) :
    (∀ n : ℕ, (((js.foldl (fallVisit k) w).circleArray)[n]?).map geom
        = (w.circleArray[n]?).map geom) ∧
      (js.foldl (fallVisit k) w).calls
        = w.calls ++ (js.filter (fun i => hits w.circleArray k i)).map (fun i => (k, i)) := by
  induction js generalizing w with
  | nil => simp
  | cons j js ih =>
    obtain ⟨g1, c1⟩ := fallVisit_spec k w j
    obtain ⟨g2, c2⟩ := ih (fallVisit k w j)
    rw [List.foldl_cons]
    refine ⟨fun n => (g2 n).trans (g1 n), ?_⟩
    have hfun : (fun i => hits (fallVisit k w j).circleArray k i)
        = (fun i => hits w.circleArray k i) :=
      funext (fun i => hits_congr _ _ k i g1)
    rw [c2, c1, hfun, List.filter_cons]
    by_cases hj : hits w.circleArray k j = true
    · simp [hj]
    · simp [hj]

theorem fall_spec (W H : ℝ) (k : ℕ) (w : World) :
    (fall W H k w).circleArray.length = w.circleArray.length ∧
      (fall W H k w).calls
        = w.calls ++ ((List.range w.circleArray.length).filter
            (fun i => hits (moved W H w.circleArray k) k i)).map (fun i => (k, i)) := by
  unfold fall moved
  cases hk : w.circleArray[k]? with
  | none =>
    have hnone : ∀ i, hits w.circleArray k i = false := by
      intro i
      unfold hits
      rw [hk]
    simp [hnone]
  | some this =>
    obtain ⟨g, c⟩ := foldl_fallVisit k (List.range w.circleArray.length)
      { w with circleArray := w.circleArray.set k (fallStep W H this) }
    refine ⟨?_, c⟩
    rw [length_eq_of_geom _ _ g]
    simp

theorem before_succ (W H : ℝ) (w : World) (k : ℕ) :
    before W H w (k + 1) = fall W H k (before W H w k) := by
  simp [before, List.range_succ]

theorem before_spec (W H : ℝ) (w : World) (k : ℕ) :
    (before W H w k).circleArray.length = w.circleArray.length ∧
      (before W H w k).calls
        = w.calls ++ (List.range k).flatMap (fun j =>
            ((List.range w.circleArray.length).filter
              (fun i => hits (moved W H (before W H w j).circleArray j) j i)).map
              (fun i => (j, i))) := by
  induction k with
  | zero => simp [before]
  | succ k ih =>
    obtain ⟨hl, hc⟩ := ih
    obtain ⟨fl, fc⟩ := fall_spec W H k (before W H w k)
    rw [before_succ]
    refine ⟨fl.trans hl, ?_⟩
    rw [fc, hc, hl, List.range_succ, List.flatMap_append, List.flatMap_singleton,
      List.append_assoc]

theorem animate_eq_before (W H : ℝ) (w : World) :
    animate W H w = before W H w w.circleArray.length := rfl

theorem calls_of_animate (W H : ℝ) (w : World) :
    (animate W H w).calls = w.calls ++ frameCalls W H w := by
  rw [animate_eq_before, (before_spec W H w w.circleArray.length).2]
  rfl

theorem mem_frameCalls (W H : ℝ) (w : World) (k i : ℕ) :
    (k, i) ∈ frameCalls W H w ↔
      hits (moved W H (before W H w k).circleArray k) k i = true := by
  have hlen : (moved W H (before W H w k).circleArray k).length = w.circleArray.length := by
    unfold moved
    split
    · exact (before_spec W H w k).1
    · rw [List.length_set]
      exact (before_spec W H w k).1
  unfold frameCalls
  simp only [List.mem_flatMap, List.mem_map, List.mem_filter, List.mem_range, Prod.mk.injEq]
  constructor
  · rintro ⟨k', _, i', ⟨_, h⟩, rfl, rfl⟩
    exact h
  · intro h
    have hk : k < w.circleArray.length := by
      rw [← hlen]
      by_contra hge
      unfold hits at h
      rw [List.getElem?_eq_none (not_lt.mp hge)] at h
      cases h
    have hi : i < w.circleArray.length := by
      rw [← hlen]
      by_contra hge
      unfold hits at h
      rw [List.getElem?_eq_none (not_lt.mp hge)] at h
      split at h <;> simp_all
    exact ⟨k, hk, i, ⟨hi, h⟩, rfl, rfl⟩

theorem nodup_frameCalls (W H : ℝ) (w : World) : (frameCalls W H w).Nodup := by
  unfold frameCalls
  rw [List.nodup_flatMap]
  constructor
  · intro k _
    apply List.Nodup.map
    · intro a b h
      exact (Prod.mk.injEq _ _ _ _ ▸ h).2
    · exact List.Nodup.filter _ (List.nodup_range _)
  · apply List.Pairwise.imp_of_mem _ (List.nodup_range _)
    intro a b _ _ hab
    simp only [Function.onFun]
    intro p hp1 hp2
    simp only [List.mem_map, List.mem_filter] at hp1 hp2
    obtain ⟨_, _, rfl⟩ := hp1
    obtain ⟨_, _, h2⟩ := hp2
    exact hab (congrArg Prod.fst h2).symm

/-! ## Circles at rest -/

theorem set_of_getElem_some (cs : List Circle) (k : ℕ) (a : Circle) (h : cs[k]? = some a) :
    cs.set k a = cs := by
  apply List.ext_getElem?
  intro n
  rw [List.getElem?_set']
  by_cases hkn : k = n
  · subst hkn
    simp [h]
  · rw [if_neg hkn]

theorem fallStep_stationary (W H : ℝ) (c : Circle) (h : c.velocity = { x := 0, y := 0 }) :
    fallStep W H c = c := by
  have hx : c.velocity.x = 0 := by rw [h]
  have hy : c.velocity.y = 0 := by rw [h]
  have vx := fallStep_velocity_x W H c
  have vy := fallStep_velocity_y W H c
  rw [hx, neg_zero, ite_self] at vx
  rw [hy, neg_zero, ite_self] at vy
  have px : (fallStep W H c).x = c.x + (fallStep W H c).velocity.x := rfl
  have py : (fallStep W H c).y = c.y + (fallStep W H c).velocity.y := rfl
  refine Circle.ext ?_ ?_ ?_ rfl rfl
  · rw [px, vx, add_zero]
  · rw [py, vy, add_zero]
  · rw [h]
    exact Velocity.ext vx vy

theorem resolveCollision_stationary (a b : Circle) (ha : a.velocity = { x := 0, y := 0 })
    (hb : b.velocity = { x := 0, y := 0 }) : resolveCollision a b = (a, b) := by
  obtain ⟨g1, g2, g3, g4, g5, g6, g7, g8⟩ := resolveCollision_geometry a b
  have hv : (resolveCollision a b).1.velocity = a.velocity
      ∧ (resolveCollision a b).2.velocity = b.velocity := by
    unfold resolveCollision
    simp only [ha, hb]
    split
    · simp [rotate, v1, v2]
    · exact ⟨ha, hb⟩
  exact Prod.ext (Circle.ext g1 g2 hv.1 g3 g4) (Circle.ext g5 g6 hv.2 g7 g8)

theorem fallVisit_stationary (k : ℕ) (w : World) (i : ℕ) (h : stationary w.circleArray) :
    (fallVisit k w i).circleArray = w.circleArray := by
  unfold fallVisit
  split
  · rfl
  · split
    · rename_i a b hk hi
      split
      · have ha := h a (List.getElem?_mem hk)
        have hb := h b (List.getElem?_mem hi)
        simp only [resolveCollision_stationary a b ha hb]
        rw [set_of_getElem_some _ k a hk, set_of_getElem_some _ i b hi]
      · rfl
    · rfl

theorem foldl_fallVisit_stationary (k : ℕ) (js : List ℕ) (w : World)
    (h : stationary w.circleArray) :
    (js.foldl (fallVisit k) w).circleArray = w.circleArray := by
  induction js generalizing w with
  | nil => rfl
  | cons j js ih =>
    have h1 := fallVisit_stationary k w j h
    rw [List.foldl_cons, ih (fallVisit k w j) (by rw [h1]; exact h), h1]

theorem moved_stationary (W H : ℝ) (cs : List Circle) (k : ℕ) (h : stationary cs) :
    moved W H cs k = cs := by
  unfold moved
  split
  · rfl
  · rename_i this hk
    rw [fallStep_stationary W H this (h this (List.getElem?_mem hk))]
    exact set_of_getElem_some cs k this hk

theorem fall_stationary (W H : ℝ) (k : ℕ) (w : World) (h : stationary w.circleArray) :
    (fall W H k w).circleArray = w.circleArray := by
  have hm := moved_stationary W H w.circleArray k h
  unfold moved at hm
  unfold fall
  split
  · rfl
  · rename_i this hk
    rw [hk] at hm
    simp only at hm
    rw [foldl_fallVisit_stationary k _ _ (by rw [hm]; exact h)]
    exact hm

theorem before_stationary (W H : ℝ) (w : World) (k : ℕ) (h : stationary w.circleArray) :
    (before W H w k).circleArray = w.circleArray := by
  induction k with
  | zero => rfl
  | succ k ih =>
    rw [before_succ, fall_stationary W H k _ (by rw [ih]; exact h), ih]

theorem frameCalls_stationary (W H : ℝ) (w : World) (h : stationary w.circleArray) :
    frameCalls W H w =
      (List.range w.circleArray.length).flatMap (fun k =>
        ((List.range w.circleArray.length).filter
          (fun i => hits w.circleArray k i)).map (fun i => (k, i))) := by
  unfold frameCalls
  congr 1
  funext k
  rw [before_stationary W H w k h, moved_stationary W H _ k h]

theorem stillA_stillB_overlap :
    distance stillA.x stillA.y stillB.x stillB.y < stillA.radius + stillB.radius
      ∧ distance stillB.x stillB.y stillA.x stillA.y < stillB.radius + stillA.radius := by
  constructor
  · unfold distance
    simp only [stillA, stillB]
    rw [Real.sqrt_lt' (by norm_num)]
    norm_num
  · unfold distance
    simp only [stillA, stillB]
    rw [Real.sqrt_lt' (by norm_num)]
    norm_num

theorem frameCalls_still : frameCalls 500 500 ⟨[stillA, stillB], []⟩ = [(0, 1), (1, 0)] := by
  have hs : stationary [stillA, stillB] := by
    intro c hc
    simp only [List.mem_cons, List.mem_singleton, List.not_mem_nil, or_false] at hc
    rcases hc with rfl | rfl <;> rfl
  obtain ⟨o1, o2⟩ := stillA_stillB_overlap
  rw [frameCalls_stationary 500 500 _ hs]
  have h01 : hits [stillA, stillB] 0 1 = true := by simp [hits, o1]
  have h10 : hits [stillA, stillB] 1 0 = true := by simp [hits, o2]
  simp [List.range_succ, List.flatMap, List.filter, hits_self, h01, h10]

theorem hits_iff (cs : List Circle) (k i : ℕ) :
    hits cs k i = true ↔
      k ≠ i ∧ ∃ this other : Circle, cs[k]? = some this ∧ cs[i]? = some other ∧
        distance this.x this.y other.x other.y < this.radius + other.radius := by
  unfold hits
  cases hk : cs[k]? with
  | none => simp
  | some a =>
    cases hi : cs[i]? with
    | none => simp
    | some b => simp

theorem distance_comm (x1 y1 x2 y2 : ℝ) : distance x1 y1 x2 y2 = distance x2 y2 x1 y1 := by
  unfold distance
  simp only
  congr 1
  ring

theorem count_eq_one_of_nodup (l : List (ℕ × ℕ)) (p : ℕ × ℕ) (hn : l.Nodup) (hp : p ∈ l) :
    List.count p l = 1 := by
  induction l with
  | nil => cases hp
  | cons x xs ih =>
    rw [List.nodup_cons] at hn
    rw [List.count_cons]
    rcases List.mem_cons.mp hp with rfl | hmem
    · rw [List.count_eq_zero_of_not_mem hn.1]
      simp
    · have hne : x ≠ p := fun h => hn.1 (h ▸ hmem)
      rw [ih hn.2 hmem]
      simp [hne]

/-! ## The calls of one frame, settled -/

/-- C6, as stated, fails: two circles at rest inside a 500 by 500 arena,
centres 10 apart, radii 20.  One frame hands the pair to `resolveCollision`
twice, as `(0,1)` in the fall of the first and as `(1,0)` in the fall of the
second. -/
theorem overlapping_pair_handed_twice :
    distance stillA.x stillA.y stillB.x stillB.y < stillA.radius + stillB.radius ∧
      (animate 500 500 ⟨[stillA, stillB], []⟩).calls = [(0, 1), (1, 0)] ∧
      List.count (0, 1) (animate 500 500 ⟨[stillA, stillB], []⟩).calls
        + List.count (1, 0) (animate 500 500 ⟨[stillA, stillB], []⟩).calls = 2 := by
  have h : (animate 500 500 ⟨[stillA, stillB], []⟩).calls = [(0, 1), (1, 0)] := by
    rw [calls_of_animate, frameCalls_still]
    rfl
  refine ⟨stillA_stillB_overlap.1, h, ?_⟩
  rw [h]
  decide

/-- C6, amended.  One frame of `animate` adds the calls `frameCalls`; no
ordered pair occurs twice among them; `(k, i)` is among them exactly when
`k ≠ i` and, in the fall of circle `k` (circle `k` moved by its integration
step, the others as that moment finds them), the centre distance is less
than the sum of the radii.  For circles at rest an overlapping pair is
handed once in each order, so twice, and a pair at distance at least the sum
of the radii is not handed at all. -/
theorem animate_calls (W H : ℝ) (w : World) :
    (animate W H w).calls = w.calls ++ frameCalls W H w ∧
      (frameCalls W H w).Nodup ∧
      (∀ k i : ℕ, (k, i) ∈ frameCalls W H w ↔
        k ≠ i ∧ ∃ this other : Circle,
          (moved W H (before W H w k).circleArray k)[k]? = some this ∧
          (moved W H (before W H w k).circleArray k)[i]? = some other ∧
          distance this.x this.y other.x other.y < this.radius + other.radius) ∧
      (stationary w.circleArray →
        ∀ (k i : ℕ) (a b : Circle), k ≠ i →
          w.circleArray[k]? = some a → w.circleArray[i]? = some b →
          (distance a.x a.y b.x b.y < a.radius + b.radius →
            List.count (k, i) (frameCalls W H w) = 1
              ∧ List.count (i, k) (frameCalls W H w) = 1) ∧
          (distance a.x a.y b.x b.y ≥ a.radius + b.radius →
            List.count (k, i) (frameCalls W H w) = 0
              ∧ List.count (i, k) (frameCalls W H w) = 0)) := by
  refine ⟨calls_of_animate W H w, nodup_frameCalls W H w,
    fun k i => (mem_frameCalls W H w k i).trans (hits_iff _ k i), ?_⟩
  intro hs k i a b hki hk hi
  have mem : ∀ k i : ℕ, (k, i) ∈ frameCalls W H w ↔ hits w.circleArray k i = true := by
    intro k i
    rw [mem_frameCalls, before_stationary W H w k hs, moved_stationary W H _ k hs]
  have hki_iff : hits w.circleArray k i = true
      ↔ distance a.x a.y b.x b.y < a.radius + b.radius := by
    rw [hits_iff]
    constructor
    · rintro ⟨_, a', b', ha', hb', hd⟩
      rw [hk] at ha'
      rw [hi] at hb'
      cases ha'
      cases hb'
      exact hd
    · intro hd
      exact ⟨hki, a, b, hk, hi, hd⟩
  have hik_iff : hits w.circleArray i k = true
      ↔ distance a.x a.y b.x b.y < a.radius + b.radius := by
    rw [hits_iff, distance_comm a.x a.y b.x b.y, add_comm a.radius b.radius]
    constructor
    · rintro ⟨_, b', a', hb', ha', hd⟩
      rw [hk] at ha'
      rw [hi] at hb'
      cases ha'
      cases hb'
      exact hd
    · intro hd
      exact ⟨fun h => hki h.symm, b, a, hi, hk, hd⟩
  constructor
  · intro hd
    exact ⟨count_eq_one_of_nodup _ _ (nodup_frameCalls W H w) ((mem k i).mpr (hki_iff.mpr hd)),
      count_eq_one_of_nodup _ _ (nodup_frameCalls W H w) ((mem i k).mpr (hik_iff.mpr hd))⟩
  · intro hd
    have hnot : ¬ distance a.x a.y b.x b.y < a.radius + b.radius := not_lt.mpr hd
    exact ⟨List.count_eq_zero_of_not_mem (fun h => hnot (hki_iff.mp ((mem k i).mp h))),
      List.count_eq_zero_of_not_mem (fun h => hnot (hik_iff.mp ((mem i k).mp h)))⟩

/-- C6, amended, on the two circles at rest: each order of the pair is
handed exactly once. -/
theorem animate_calls_witness :
    List.count (0, 1) (frameCalls 500 500 ⟨[stillA, stillB], []⟩) = 1
      ∧ List.count (1, 0) (frameCalls 500 500 ⟨[stillA, stillB], []⟩) = 1 :=
  ((animate_calls 500 500 ⟨[stillA, stillB], []⟩).2.2.2
    (by
      intro c hc
      simp only [List.mem_cons, List.mem_singleton, List.not_mem_nil, or_false] at hc
      rcases hc with rfl | rfl <;> rfl)
    0 1 stillA stillB (by decide) rfl rfl).1 stillA_stillB_overlap.1

/-! ## The second visit of a pair within one frame -/

theorem atan2_zero_of_neg (x : ℝ) (hx : x < 0) : atan2 0 x = Real.pi := by
  have h : (⟨x, 0⟩ : ℂ) = (x : ℂ) := rfl
  rw [atan2, h, Complex.arg_ofReal_of_neg hx]

theorem wall_first_visit :
    resolveCollision { x := 445, y := 100, velocity := { x := 5, y := 0 }, radius := 20, mass := 1 }
        wallB
      = ({ x := 445, y := 100, velocity := { x := 0, y := 0 }, radius := 20, mass := 1 },
         { x := 478, y := 100, velocity := { x := 5, y := 0 }, radius := 20, mass := 1 }) := by
  have h : atan2 0 33 = 0 := atan2_zero_of_nonneg 33 (by norm_num)
  have e : (478 : ℝ) - 445 = 33 := by norm_num
  simp [resolveCollision, wallB, rotate, v1, v2, e, h]
  norm_num

theorem wall_second_visit :
    resolveCollision
        { x := 473, y := 100, velocity := { x := -5, y := 0 }, radius := 20, mass := 1 }
        { x := 445, y := 100, velocity := { x := 0, y := 0 }, radius := 20, mass := 1 }
      = ({ x := 473, y := 100, velocity := { x := 0, y := 0 }, radius := 20, mass := 1 },
         { x := 445, y := 100, velocity := { x := -5, y := 0 }, radius := 20, mass := 1 }) := by
  have h : atan2 0 (-28) = Real.pi := atan2_zero_of_neg (-28) (by norm_num)
  have e : (445 : ℝ) - 473 = -28 := by norm_num
  simp [resolveCollision, rotate, v1, v2, e, h]
  norm_num

theorem wall_fallStep_A :
    fallStep 500 500 wallA
      = { x := 445, y := 100, velocity := { x := 5, y := 0 }, radius := 20, mass := 1 } := by
  simp only [fallStep, wallA, frictionX, frictionY]
  norm_num

theorem wall_fallStep_B :
    fallStep 500 500
        { x := 478, y := 100, velocity := { x := 5, y := 0 }, radius := 20, mass := 1 }
      = { x := 473, y := 100, velocity := { x := -5, y := 0 }, radius := 20, mass := 1 } := by
  simp only [fallStep, frictionX, frictionY]
  norm_num

theorem wall_distances :
    distance 445 100 478 100 < 20 + 20 ∧ distance 473 100 445 100 < 20 + 20 := by
  constructor
  · unfold distance
    simp only
    rw [Real.sqrt_lt' (by norm_num)]
    norm_num
  · unfold distance
    simp only
    rw [Real.sqrt_lt' (by norm_num)]
    norm_num

theorem wall_fall_A :
    fall 500 500 0 ⟨[wallA, wallB], []⟩
      = ⟨[{ x := 445, y := 100, velocity := { x := 0, y := 0 }, radius := 20, mass := 1 },
          { x := 478, y := 100, velocity := { x := 5, y := 0 }, radius := 20, mass := 1 }],
         [(0, 1)]⟩ := by
  have hd := wall_distances.1
  have hw : wallB.x = 478 ∧ wallB.y = 100 ∧ wallB.radius = 20 := ⟨rfl, rfl, rfl⟩
  simp [fall, wall_fallStep_A, List.range_succ, fallVisit, hw, hd, wall_first_visit]

theorem wall_fall_B :
    fall 500 500 1
        ⟨[{ x := 445, y := 100, velocity := { x := 0, y := 0 }, radius := 20, mass := 1 },
          { x := 478, y := 100, velocity := { x := 5, y := 0 }, radius := 20, mass := 1 }],
         [(0, 1)]⟩
      = ⟨[{ x := 445, y := 100, velocity := { x := -5, y := 0 }, radius := 20, mass := 1 },
          { x := 473, y := 100, velocity := { x := 0, y := 0 }, radius := 20, mass := 1 }],
         [(0, 1), (1, 0)]⟩ := by
  have hd := wall_distances.2
  simp [fall, wall_fallStep_B, List.range_succ, fallVisit, hd, wall_second_visit]

/-- C10, as stated, fails in its conclusion: `wallA` moves right at speed 5
towards `wallB`, at rest near the right wall of a 500 by 500 arena (equal
masses, distinct centres).  The first visit, in the fall of `wallA`, leaves
`wallA` at rest and gives `wallB` the velocity `(5,0)`; the integration step
of `wallB` flips that at the wall; the second visit, in the fall of `wallB`,
exchanges again and leaves `wallA` with velocity `(-5,0)`. -/
theorem repeated_visit_second_impulse :
    wallA.mass = wallB.mass ∧ 0 < wallA.mass ∧ (wallA.x, wallA.y) ≠ (wallB.x, wallB.y) ∧
      (before 500 500 ⟨[wallA, wallB], []⟩ 1).circleArray
        = [{ x := 445, y := 100, velocity := { x := 0, y := 0 }, radius := 20, mass := 1 },
           { x := 478, y := 100, velocity := { x := 5, y := 0 }, radius := 20, mass := 1 }] ∧
      (animate 500 500 ⟨[wallA, wallB], []⟩).calls = [(0, 1), (1, 0)] ∧
      (animate 500 500 ⟨[wallA, wallB], []⟩).circleArray
        = [{ x := 445, y := 100, velocity := { x := -5, y := 0 }, radius := 20, mass := 1 },
           { x := 473, y := 100, velocity := { x := 0, y := 0 }, radius := 20, mass := 1 }] := by
  have hb : before 500 500 ⟨[wallA, wallB], []⟩ 1 = fall 500 500 0 ⟨[wallA, wallB], []⟩ := by
    rw [before_succ]
    rfl
  have ha : animate 500 500 ⟨[wallA, wallB], []⟩
      = fall 500 500 1 (fall 500 500 0 ⟨[wallA, wallB], []⟩) := by
    rw [animate_eq_before]
    show before 500 500 ⟨[wallA, wallB], []⟩ 2 = _
    rw [before_succ, hb]
  refine ⟨rfl, by norm_num [wallA], ?_, ?_, ?_, ?_⟩
  · intro h
    have h1 := congrArg Prod.fst h
    norm_num [wallA, wallB] at h1
  · rw [hb, wall_fall_A]
  · rw [ha, wall_fall_A, wall_fall_B]
  · rw [ha, wall_fall_A, wall_fall_B]

end Gravity

end
